import Mathlib

/-!
Verification of the Nudger context-retrieval subsystem and orchestration
pipeline (`context_manager.py`, `llm_orchestrator.py`, `main.py`).

Shallow embedding conventions:
* A Python context dict is an association list of string keys to string
  values (`Ctx`).  Fields that are numeric in the data (steps, heart rate)
  are carried as their decimal strings; no claim depends on numeric reprs.
* Python floats (relevance scores, latencies) are modelled as rationals;
  the score tiers 0.9 / 0.7 / 0.0 and the factor 1.1 are exact decimals.
* Wall-clock latencies cannot be computed, so measured durations enter the
  model as parameters; only the presence/absence of latency keys and the
  exact scores matter to the claims.
* Python object identity (`id(ctx)`) used for de-duplication is modelled by
  the ordinal position of the item in the stored list, matching the spec's
  stable-ordinal-ID reading.
* Fallible calls (the LLM client, malformed user data raising during
  ingestion) are modelled with `Except`.
-/

namespace Nudger

/-! ## String utilities -/

/-- Lowercasing, as Python `str.lower` restricted to the ASCII range that all
queries and keywords of this code base use. -/
def lowerStr (s : String) : String := String.mk (s.data.map Char.toLower)

/-- Python `str.split(sep)` for a one-character separator: split on every
occurrence, keeping empty chunks. -/
def splitChar (sep : Char) : List Char → List (List Char)
  | [] => [[]]
  | c :: t =>
    if c = sep then [] :: splitChar sep t
    else
      match splitChar sep t with
      | [] => [[c]]
      | g :: gs => (c :: g) :: gs

/-- Boolean list-prefix test (used to implement substring search). -/
def listPrefixB : List Char → List Char → Bool
  | [], _ => true
  | _ :: _, [] => false
  | a :: as, b :: bs => a == b && listPrefixB as bs

/-- Boolean substring test on char lists, Python `needle in hay`. -/
def substrB (n : List Char) : List Char → Bool
  | [] => n.isEmpty
  | l@(_ :: t) => listPrefixB n l || substrB n t

/-- Python `needle in hay` on strings. -/
def hasSub (needle hay : String) : Bool := substrB needle.data hay.data

/-- A single-quote character, written via its code point. -/
def squote : String := (Char.ofNat 39).toString

/-! ## Context items (Python dicts) -/

/-- A context item: a Python dict, modelled as an ordered association list
of string keys to string values. -/
abbrev Ctx := List (String × String)

/-- Python `ctx.get(k)`: value of the first binding of `k`. -/
def ctxGet (c : Ctx) (k : String) : Option String :=
  (c.find? (fun p => p.1 == k)).map (·.2)

/-- Python `ctx.get(k, d)`. -/
def ctxGetD (c : Ctx) (k d : String) : String := (ctxGet c k).getD d

/-- `str(ctx)` — the Python dict repr `{'k': 'v', ...}` in insertion order. -/
def pyRepr (c : Ctx) : String :=
  "\x7b" ++
    String.intercalate ", "
      (c.map (fun p => squote ++ p.1 ++ squote ++ ": " ++ squote ++ p.2 ++ squote)) ++
  "\x7d"

/-- `ctx.get("type", "unknown")` (`context_manager.py` line 102). -/
def typeName (c : Ctx) : String := ctxGetD c "type" "unknown"

/-- `_format_context` — identical in `VectorDBContextManager` and
`KVCacheContextManager` (`context_manager.py` lines 47-58 and 240-251). -/
def formatCtx (c : Ctx) : String :=
  match ctxGet c "type" with
  | some ty =>
    if ty = "calendar" then
      "Calendar: " ++ ctxGetD c "title" "" ++ " at " ++ ctxGetD c "time" "" ++ ". " ++
        ctxGetD c "description" ""
    else if ty = "email" then
      "Email from " ++ ctxGetD c "sender" "" ++ ": " ++ ctxGetD c "subject" "" ++ ". " ++
        ctxGetD c "body" ""
    else if ty = "fitness" then
      "Fitness: " ++ ctxGetD c "activity_type" "" ++ " at " ++ ctxGetD c "time" "" ++
        ". Steps: " ++ ctxGetD c "steps" "0" ++ ", HR: " ++ ctxGetD c "heart_rate" "0"
    else if ty = "music" then
      "Music: " ++ ctxGetD c "track_name" "" ++ " by " ++ ctxGetD c "artist" "" ++ " (" ++
        ctxGetD c "genre" "" ++ ", " ++ ctxGetD c "mood" "" ++ ")"
    else pyRepr c
  | none => pyRepr c

/-! ## Context result -/

/-- `ContextResult` dataclass (`context_manager.py` lines 10-16).
Latency is a measured wall-clock value; the pure retrieval functions below
report 0 for it, and the pipeline threads whatever its context manager
reports. -/
structure ContextResult where
  context : String
  latency_ms : ℚ
  method : String
  relevance_score : ℚ
deriving DecidableEq

/-! ## KV cache index construction (`KVCacheContextManager.add_contexts`) -/

/-- `ctx["time"].split(" ")[1].split(":")[0]` — the raw hour substring of a
timestamp: the text between the first space and the first following colon of
the second space-separated chunk. -/
def rawHour (t : String) : String :=
  String.mk ((splitChar ':' ((splitChar ' ' t.data).getD 1 [])).getD 0 [])

/-- Hour key under which `add_contexts` stores an item
(`context_manager.py` lines 107-110): the raw, non-padded hour substring,
or `"00"` when the timestamp has no space. -/
def hourStoreKey (t : String) : String :=
  "hour_" ++ (if hasSub " " t then rawHour t else "00")

/-- The fixed keyword vocabulary (`context_manager.py` lines 117 and 203). -/
def kvKeywords : List String :=
  ["urgent", "meeting", "workout", "stressed", "deadline", "happy", "tired"]

/-- All cache keys under which `add_contexts` indexes one item:
its type key, its hour key (when it has a timestamp), and one keyword key
per vocabulary keyword occurring in `str(ctx).lower()`. -/
def keysOf (c : Ctx) : List String :=
  [typeName c] ++
    (match ctxGet c "time" with
     | some t => [hourStoreKey t]
     | none => []) ++
    ((kvKeywords.filter (fun kw => hasSub kw (lowerStr (pyRepr c)))).map
      (fun kw => "keyword_" ++ kw))

/-- `self.cache[key]` after `add_contexts(ctxs)`: the item ordinals carrying
`key`, in insertion (= corpus) order.  Python appends the dict object itself;
items are identified here by their ordinal position, which is also what the
retrieval-side `id`-deduplication distinguishes. -/
def bucket (ctxs : List Ctx) (key : String) : List Nat :=
  (List.range ctxs.length).filter (fun i => decide (key ∈ keysOf (ctxs.getD i [])))

/-! ## KV cache retrieval (`KVCacheContextManager.retrieve`) -/

/-- One bucket scan of the cascade: walk the bucket, skip items already
collected (`id(ctx) in seen`), append the rest, and stop as soon as the
quota `top_k` is reached (`context_manager.py` e.g. lines 144-150). -/
def pull (k : Nat) (acc : List Nat) : List Nat → List Nat
  | [] => acc
  | i :: rest =>
    if i ∈ acc then pull k acc rest
    else if k ≤ (acc ++ [i]).length then acc ++ [i] else pull k (acc ++ [i]) rest

/-- The category→vocabulary table (`context_manager.py` lines 134-139), in
Python dict-iteration order. -/
def typeVocab : List (String × List String) :=
  [("calendar", ["calendar", "meeting", "event", "appointment"]),
   ("email", ["email", "message", "mail"]),
   ("fitness", ["fitness", "workout", "exercise", "steps", "heart", "activity"]),
   ("music", ["music", "song", "track", "playlist"])]

/-- Step 1 of the cascade (`context_manager.py` lines 141-152): for each
category whose vocabulary intersects the lowercased query, pull from its
bucket; break out of the category loop once the quota is reached (the break
check sits inside the vocabulary-match branch). -/
def catFold (ctxs : List Ctx) (ql : String) (k : Nat) :
    List (String × List String) → List Nat → List Nat
  | [], acc => acc
  | (ty, vocab) :: rest, acc =>
    if vocab.any (fun kw => hasSub kw ql) then
      if k ≤ (pull k acc (bucket ctxs ty)).length then pull k acc (bucket ctxs ty)
      else catFold ctxs ql k rest (pull k acc (bucket ctxs ty))
    else catFold ctxs ql k rest acc

/-- Word character for the regex `\b` boundary (ASCII range). -/
def isWordChar (c : Char) : Bool := c.isAlphanum || c == '_'

/-- Skip `\s*`. -/
def skipSpaces : List Char → List Char
  | c :: t => if c.isWhitespace then skipSpaces t else c :: t
  | [] => []

def digitVal (c : Char) : Nat := c.toNat - 48

/-- Try `(\d{1,2})\s*<lit>` at the current position.  A two-digit take whose
tail fails cannot be rescued by backtracking to one digit (the next char is
then a digit, which `\s*<lit>` rejects), so no backtracking is needed. -/
def tryAmPm (lit : List Char) : List Char → Option Nat
  | c1 :: rest =>
    if c1.isDigit then
      match rest with
      | c2 :: rest2 =>
        if c2.isDigit then
          if listPrefixB lit (skipSpaces rest2) then
            some (10 * digitVal c1 + digitVal c2)
          else none
        else if listPrefixB lit (skipSpaces rest) then some (digitVal c1) else none
      | [] => none
    else none
  | [] => none

/-- Try `(\d{2}):\d{2}` at the current position. -/
def tryHHMM : List Char → Option Nat
  | c1 :: c2 :: c3 :: c4 :: c5 :: _ =>
    if c1.isDigit && c2.isDigit && c3 == ':' && c4.isDigit && c5.isDigit then
      some (10 * digitVal c1 + digitVal c2)
    else none
  | _ => none

/-- `re.search`: leftmost position with a word boundary `\b` before the
digits at which the pattern body matches.  `prevWord` records whether the
preceding character is a word character. -/
def searchPat (body : List Char → Option Nat) : Bool → List Char → Option Nat
  | _, [] => none
  | prevWord, c :: t =>
    match (if prevWord then none else body (c :: t)) with
    | some h => some h
    | none => searchPat body (isWordChar c) t

/-- `extract_hour(match, is_pm=True)` (`context_manager.py` lines 157-163). -/
def to24pm (h : Nat) : Nat := if h = 12 then 12 else h + 12

/-- `extract_hour(match, is_pm=False)` (`context_manager.py` lines 164-167). -/
def to24am (h : Nat) : Nat := if h = 12 then 0 else h

/-- Pattern 1: `\b(\d{1,2})\s*pm`, converted to a 24-hour bucket number. -/
def pmHour (ql : String) : Option Nat :=
  (searchPat (tryAmPm ['p', 'm']) false ql.data).map to24pm

/-- Pattern 2: `\b(\d{1,2})\s*am`, converted to a 24-hour bucket number. -/
def amHour (ql : String) : Option Nat :=
  (searchPat (tryAmPm ['a', 'm']) false ql.data).map to24am

/-- Pattern 3: `\b(\d{2}):\d{2}`, hour kept as parsed. -/
def hhmmHour (ql : String) : Option Nat :=
  searchPat tryHHMM false ql.data

/-- `f"hour_{hour:02d}"` — the zero-padded lookup key used by `retrieve`
(`context_manager.py` line 180). -/
def pad2 (h : Nat) : String := if h < 10 then "0" ++ toString h else toString h

def hourLookupKey (h : Nat) : String := "hour_" ++ pad2 h

/-- Loop body of step 2 (`context_manager.py` lines 175-192): for each of the
three patterns, in order, pull from the bucket of the parsed hour; the break
check sits inside the match branch.  (The `try/except` around the extractor
is unreachable — the captured group is always 1-2 digits — and the trailing
`time_keywords` loop only `break`s, so neither is modelled.) -/
def hourGo (ctxs : List Ctx) (k : Nat) : List (Option Nat) → List Nat → List Nat
  | [], acc => acc
  | o :: rest, acc =>
    match o with
    | some h =>
      if k ≤ (pull k acc (bucket ctxs (hourLookupKey h))).length then
        pull k acc (bucket ctxs (hourLookupKey h))
      else hourGo ctxs k rest (pull k acc (bucket ctxs (hourLookupKey h)))
    | none => hourGo ctxs k rest acc

/-- Step 3 of the cascade (`context_manager.py` lines 202-217): for each
vocabulary keyword contained in the lowercased query, pull from its keyword
bucket; break check inside the containment branch. -/
def kwFold (ctxs : List Ctx) (ql : String) (k : Nat) : List String → List Nat → List Nat
  | [], acc => acc
  | kw :: rest, acc =>
    if hasSub kw ql then
      if k ≤ (pull k acc (bucket ctxs ("keyword_" ++ kw))).length then
        pull k acc (bucket ctxs ("keyword_" ++ kw))
      else kwFold ctxs ql k rest (pull k acc (bucket ctxs ("keyword_" ++ kw)))
    else kwFold ctxs ql k rest acc

/-- `reversed(self.all_contexts[-top_k:])` as ordinals: the last
`min top_k n` positions, newest first. -/
def recencyList (n k : Nat) : List Nat := ((List.range n).drop (n - k)).reverse

/-- Step 1 applied to an accumulator. -/
def catStep (ctxs : List Ctx) (ql : String) (k : Nat) (acc : List Nat) : List Nat :=
  catFold ctxs ql k typeVocab acc

/-- Step 2, guarded by `if len(retrieved) < top_k`. -/
def hourStep (ctxs : List Ctx) (ql : String) (k : Nat) (acc : List Nat) : List Nat :=
  if acc.length < k then hourGo ctxs k [pmHour ql, amHour ql, hhmmHour ql] acc else acc

/-- Step 3, guarded by `if len(retrieved) < top_k`. -/
def kwStep (ctxs : List Ctx) (ql : String) (k : Nat) (acc : List Nat) : List Nat :=
  if acc.length < k then kwFold ctxs ql k kvKeywords acc else acc

/-- Step 4, the recency fallback, guarded by `if len(retrieved) < top_k`. -/
def recencyStep (ctxs : List Ctx) (k : Nat) (acc : List Nat) : List Nat :=
  if acc.length < k then pull k acc (recencyList ctxs.length k) else acc

/-- The ordinals collected by `KVCacheContextManager.retrieve(query, top_k)`
over the corpus stored by `add_contexts`, in collection order. -/
def kvRetrieveIdx (ctxs : List Ctx) (query : String) (k : Nat) : List Nat :=
  recencyStep ctxs k
    (kwStep ctxs (lowerStr query) k
      (hourStep ctxs (lowerStr query) k (catStep ctxs (lowerStr query) k [])))

/-- `KVCacheContextManager.retrieve` (`context_manager.py` lines 125-238). -/
def kvRetrieve (ctxs : List Ctx) (query : String) (k : Nat) : ContextResult :=
  let idxs := kvRetrieveIdx ctxs query k
  { context := String.intercalate "\n" ((idxs.take k).map (fun i => formatCtx (ctxs.getD i [])))
    latency_ms := 0
    method := "kv_cache"
    relevance_score :=
      if k ≤ idxs.length then 9 / 10 else if 0 < idxs.length then 7 / 10 else 0 }

/-! ## Vector DB (`VectorDBContextManager`)

The embedding service (sentence-transformers) and the FAISS flat L2 index
are external collaborators; per the spec they are a deterministic
string→vector map and an exact nearest-neighbour search over the stored
vectors.  Vectors are modelled with integer coordinates (the claims do not
depend on the numeric field), squared-L2 distances are exact. -/

/-- Squared Euclidean distance over coordinate lists of the encoder's fixed
dimension. -/
def l2sq (u v : List Int) : Int :=
  ((u.zip v).map (fun p => (p.1 - p.2) ^ 2)).sum

/-- Insert a `(index, distance)` pair into a distance-sorted list, after any
equal distances (stable: FAISS ties resolve to the lower index). -/
def insertByDist (p : Nat × Int) : List (Nat × Int) → List (Nat × Int)
  | [] => [p]
  | q :: t => if p.2 < q.2 then p :: q :: t else q :: insertByDist p t

/-- Sort `(index, distance)` pairs by ascending distance. -/
def sortByDist : List (Nat × Int) → List (Nat × Int)
  | [] => []
  | p :: t => insertByDist p (sortByDist t)

/-- `self.index.search(query_embedding, k)`: the `k` nearest stored vectors,
as `(index, distance)` pairs in ascending-distance order. -/
def knnSearch (embs : List (List Int)) (q : List Int) (k : Nat) : List (Nat × Int) :=
  (sortByDist ((List.range embs.length).map (fun i => (i, l2sq (embs.getD i []) q)))).take k

/-- The search result of `VectorDBContextManager.retrieve`
(`context_manager.py` line 69): `k` is clamped to `min(top_k, len(contexts))`. -/
def vdbSearch (enc : String → List Int) (ctxs : List Ctx) (query : String) (k : Nat) :
    List (Nat × Int) :=
  let sents := ctxs.map formatCtx
  knnSearch (sents.map enc) (enc query) (min k sents.length)

/-- The retrieved sentences (`context_manager.py` lines 72-75): indices are
additionally guarded by `idx < len(self.contexts)`. -/
def vdbRetrievedList (enc : String → List Int) (ctxs : List Ctx) (query : String)
    (k : Nat) : List String :=
  let sents := ctxs.map formatCtx
  (((vdbSearch enc ctxs query k).map (·.1)).filter (fun i => decide (i < sents.length))).map
    (fun i => sents.getD i "")

/-- `VectorDBContextManager.retrieve` (`context_manager.py` lines 60-85).
Relevance is `1 / (1 + distances[0][0])` when the search returned anything,
else `0.0`. -/
def vdbRetrieve (enc : String → List Int) (ctxs : List Ctx) (query : String)
    (k : Nat) : ContextResult :=
  { context := String.intercalate "\n" (vdbRetrievedList enc ctxs query k)
    latency_ms := 0
    method := "vector_db"
    relevance_score :=
      match vdbSearch enc ctxs query k with
      | [] => 0
      | (_, d) :: _ => 1 / (1 + (d : ℚ)) }

/-! ## Benchmark decision (`main.py` line 53) -/

/-- `use_vector_db = vector_avg_relevance > kv_avg_relevance * 1.1`. -/
def benchDecision (vecRelevance kvRelevance : ℚ) : Bool :=
  kvRelevance * (11 / 10) < vecRelevance

/-! ## Orchestration pipeline (`llm_orchestrator.py`) -/

/-- A language-model response: generated text plus token usage. -/
structure LLMResponse where
  content : String
  prompt_tokens : Nat
  completion_tokens : Nat

/-- The external language-model client: one prompt in, a response or a raised
error out (a single user message is sent per call). -/
abbrev LLMClient := String → Except String LLMResponse

/-- A context-manager capability as the pipeline uses it:
`add_contexts(corpus)` followed by `retrieve(query, top_k)`.  Instantiated by
`kvRetrieve` or `vdbRetrieve enc`. -/
abbrev CMRetrieve := List Ctx → String → Nat → ContextResult

/-- The caller's user-data snapshot.  `malformed = some e` models user data
whose flattening in `_ingest_data` raises an exception with message `e`
(the spec's PipelineFatalError source); such an exception propagates out of
`graph.invoke` into the `try` of `generate_nudge`. -/
structure UserData where
  calendar : List Ctx := []
  emails : List Ctx := []
  fitness : List Ctx := []
  music : List Ctx := []
  malformed : Option String := none

/-- `{**event, "type": ty}`: set or append the `"type"` binding. -/
def tagType (c : Ctx) (ty : String) : Ctx :=
  if c.any (fun p => p.1 == "type") then
    c.map (fun p => if p.1 == "type" then (p.1, ty) else p)
  else c ++ [("type", ty)]

/-- Flattening of the snapshot into tagged context items
(`llm_orchestrator.py` lines 115-123). -/
def flattenUD (ud : UserData) : List Ctx :=
  ud.calendar.map (tagType · "calendar") ++ ud.emails.map (tagType · "email") ++
    ud.fitness.map (tagType · "fitness") ++ ud.music.map (tagType · "music")

/-- The Pipeline State dict threaded through the stages.  A Python dict key
that may be absent is an `Option`; `latency_breakdown` only ever receives
the five keys modelled here, so it is a record of optional entries. -/
structure PState where
  user_data : Option UserData := none
  context : String := ""
  analysis : Option String := none
  nudge : Option String := none
  latIngestion : Option ℚ := none
  latRetrieval : Option ℚ := none
  latAnalysis : Option ℚ := none
  latNudgeGen : Option ℚ := none
  latTotal : Option ℚ := none
  tokInput : Nat := 0
  tokOutput : Nat := 0
  error : Option String := none

/-- Measured wall-clock durations of the stages of one call, supplied to the
model as parameters (`time.perf_counter` deltas are not computable). -/
structure StageLats where
  ingestion : ℚ := 1
  analysis : ℚ := 1
  nudgeGen : ℚ := 1
  total : ℚ := 1
  errTotal : ℚ := 1

/-- `state.get("user_data", {})`. -/
def udOf (st : PState) : UserData := st.user_data.getD {}

/-- `_ingest_data` (`llm_orchestrator.py` lines 108-131): flatten the
snapshot, rebuild the context manager's index, record the ingestion latency.
Malformed data raises, which propagates (no `try` in this stage). -/
def ingestStage (lat : ℚ) (st : PState) : Except String PState :=
  match (udOf st).malformed with
  | some e => .error e
  | none => .ok { st with latIngestion := some lat }

/-- The query built by `_retrieve_context` (`llm_orchestrator.py` lines
138-151): most recent email subject and most recent fitness activity, or a
generic fallback. -/
def buildQuery (ud : UserData) : String :=
  let parts :=
    (if ud.emails.isEmpty then []
     else ["Recent email: " ++ ctxGetD (ud.emails.getLastD []) "subject" ""]) ++
    (if ud.fitness.isEmpty then []
     else ["Current activity: " ++ ctxGetD (ud.fitness.getLastD []) "activity_type" ""])
  if parts.isEmpty then "user context and mood" else String.intercalate " " parts

/-- `_retrieve_context` (`llm_orchestrator.py` lines 133-157): query the
context manager over the corpus stored at ingestion with `top_k=3`; store the
context text and the reported retrieval latency. -/
def retrieveStage (cm : CMRetrieve) (st : PState) : PState :=
  let r := cm (flattenUD (udOf st)) (buildQuery (udOf st)) 3
  { st with context := r.context, latRetrieval := some r.latency_ms }

/-- The analysis prompt (`llm_orchestrator.py` lines 166-176). -/
def analysisPrompt (context : String) : String :=
  "Analyze the following user context and infer their current mood, stress level, and needs.\n\nContext:\n"
    ++ context ++
  "\n\nProvide a brief analysis (2-3 sentences) of:\n1. Current emotional state\n2. Stress indicators\n3. Immediate needs or concerns\n\nAnalysis:"

/-- `_analyze_context` (`llm_orchestrator.py` lines 159-199): invoke the LLM
once; on success store the analysis and accumulate token counts; on failure
record the error and the fixed fallback analysis.  The analysis latency key
is written on both paths. -/
def analyzeStage (llm : LLMClient) (lat : ℚ) (st : PState) : PState :=
  match llm (analysisPrompt st.context) with
  | .ok r =>
    { st with
      analysis := some r.content
      tokInput := st.tokInput + r.prompt_tokens
      tokOutput := st.tokOutput + r.completion_tokens
      latAnalysis := some lat }
  | .error e =>
    { st with
      error := some ("Analysis error: " ++ e)
      analysis := some "Unable to analyze context."
      latAnalysis := some lat }

/-- `music_context` (`llm_orchestrator.py` lines 210-216): the last three
music items, one bullet each; empty when the snapshot has no music. -/
def musicContext (ud : UserData) : String :=
  if ud.music.isEmpty then ""
  else
    String.intercalate "\n"
      ((ud.music.drop (ud.music.length - 3)).map
        (fun m => "- " ++ ctxGetD m "track_name" "" ++ " by " ++ ctxGetD m "artist" "" ++
          " (" ++ ctxGetD m "mood" "" ++ ")"))

/-- The nudge prompt (`llm_orchestrator.py` lines 218-235); an empty music
context renders as `"None"`. -/
def nudgePrompt (context analysis music : String) : String :=
  "Based on the following analysis and context, generate a proactive, helpful nudge or suggestion for the user.\n\nContext:\n"
    ++ context ++ "\n\nAnalysis:\n" ++ analysis ++ "\n\nRecent Music Preferences:\n"
    ++ (if music = "" then "None" else music) ++
  "\n\nGenerate a brief, personalized nudge (1-2 sentences) that:\n- Addresses their current state\n- Provides actionable advice or suggestion\n- Is empathetic and supportive\n- Can reference their preferences if relevant\n\nNudge:"

/-- The fixed fallback nudge (`llm_orchestrator.py` line 252). -/
def fallbackNudge : String := "I" ++ squote ++ "m here to help! How can I assist you today?"

/-- `_generate_nudge` (`llm_orchestrator.py` lines 201-257): invoke the LLM
once; on success store the stripped nudge and accumulate token counts; on
failure record the error and the fixed fallback nudge.  The nudge-generation
latency key is written on both paths. -/
def generateStage (llm : LLMClient) (lat : ℚ) (st : PState) : PState :=
  match llm (nudgePrompt st.context (st.analysis.getD "") (musicContext (udOf st))) with
  | .ok r =>
    { st with
      nudge := some r.content.trim
      tokInput := st.tokInput + r.prompt_tokens
      tokOutput := st.tokOutput + r.completion_tokens
      latNudgeGen := some lat }
  | .error e =>
    { st with
      error := some ("Nudge generation error: " ++ e)
      nudge := some fallbackNudge
      latNudgeGen := some lat }

/-- `LLMOrchestrator.generate_nudge` (`llm_orchestrator.py` lines 259-280):
run the four stages over a fresh state; an exception escaping the graph (only
the ingestion stage can raise) is caught and turned into the structured error
record `{error, nudge: "Error generating nudge.", latency: {total}}`. -/
def generate_nudge (cm : CMRetrieve) (llm : LLMClient) (lats : StageLats)
    (ud : UserData) : PState :=
  let st0 : PState := { user_data := some ud }
  match ingestStage lats.ingestion st0 with
  | .error e =>
    { error := some e
      nudge := some "Error generating nudge."
      latTotal := some lats.errTotal }
  | .ok st1 =>
    let st4 := generateStage llm lats.nudgeGen (analyzeStage llm lats.analysis (retrieveStage cm st1))
    { st4 with latTotal := some lats.total }

/-! ## Auxiliary definitions used by the statements -/

/-- A category table entry is eligible for a query if its vocabulary
intersects the lowercased query and its bucket is non-empty. -/
def eligB (ctxs : List Ctx) (ql : String) (p : String × List String) : Bool :=
  p.2.any (fun kw => hasSub kw ql) && !(bucket ctxs p.1).isEmpty

/-- The pipeline state right after a successful ingestion stage. -/
def stAfterIngest (ud : UserData) (lats : StageLats) : PState :=
  { user_data := some ud, latIngestion := some lats.ingestion }

/-- The stage-transition invariant of the Pipeline State: latency keys are
only ever added (never removed) and the token counters never decrease. -/
def stMono (a b : PState) : Prop :=
  (a.latIngestion.isSome = true → b.latIngestion.isSome = true) ∧
  (a.latRetrieval.isSome = true → b.latRetrieval.isSome = true) ∧
  (a.latAnalysis.isSome = true → b.latAnalysis.isSome = true) ∧
  (a.latNudgeGen.isSome = true → b.latNudgeGen.isSome = true) ∧
  (a.latTotal.isSome = true → b.latTotal.isSome = true) ∧
  a.tokInput ≤ b.tokInput ∧ a.tokOutput ≤ b.tokOutput

/-! ## Concrete example inputs used by counterexamples and witnesses -/

def cexCal1 : Ctx :=
  [("type", "calendar"), ("title", "Standup"), ("time", "2024-01-01 09:00:00"),
   ("description", "Daily sync")]

def cexCal2 : Ctx :=
  [("type", "calendar"), ("title", "Review"), ("time", "2024-01-01 10:00:00"),
   ("description", "Code review")]

def cexCal3 : Ctx :=
  [("type", "calendar"), ("title", "Planning"), ("time", "2024-01-01 11:00:00"),
   ("description", "Roadmap")]

def cexMusic : Ctx :=
  [("type", "music"), ("track_name", "Song A"), ("artist", "X"), ("genre", "pop"),
   ("mood", "calm")]

/-- Three calendar items followed by one music item. -/
def cexCorpus : List Ctx := [cexCal1, cexCal2, cexCal3, cexMusic]

/-- An LLM client that always raises. -/
def exLLMFail : LLMClient := fun _ => .error "boom"

/-- An LLM client that always answers. -/
def exLLMOk : LLMClient :=
  fun _ => .ok { content := "ok", prompt_tokens := 5, completion_tokens := 7 }

/-- A small healthy user-data snapshot. -/
def exUD : UserData :=
  { emails := [[("subject", "Urgent update"), ("body", "stressed about deadline")]],
    fitness := [[("activity_type", "workout")]] }

/-- A snapshot whose ingestion raises. -/
def exBadUD : UserData := { malformed := some "bad data" }

/-- A deterministic toy encoder. -/
def exEnc : String → List Int := fun s => [(s.length : Int)]

/-! ## Lemmas about the cascade -/

/-- Every bucket scan only appends to the accumulator. -/
theorem pull_ext (k : Nat) (b : List Nat) : ∀ acc, ∃ t, pull k acc b = acc ++ t := by
  induction b with
  | nil => intro acc; exact ⟨[], by simp [pull]⟩
  | cons i rest ih =>
    intro acc
    by_cases hc : i ∈ acc
    · obtain ⟨t, ht⟩ := ih acc
      refine ⟨t, ?_⟩
      simp only [pull]
      rw [if_pos hc]
      exact ht
    · by_cases hq : k ≤ (acc ++ [i]).length
      · refine ⟨[i], ?_⟩
        simp only [pull]
        rw [if_neg hc, if_pos hq]
      · obtain ⟨t, ht⟩ := ih (acc ++ [i])
        refine ⟨[i] ++ t, ?_⟩
        simp only [pull]
        rw [if_neg hc, if_neg hq, ht, List.append_assoc]

/-- The category step only appends to the accumulator. -/
theorem catFold_ext (ctxs : List Ctx) (ql : String) (k : Nat) :
    ∀ (L : List (String × List String)) (acc : List Nat),
      ∃ t, catFold ctxs ql k L acc = acc ++ t := by
  intro L
  induction L with
  | nil => intro acc; exact ⟨[], by simp [catFold]⟩
  | cons p rest ih =>
    intro acc
    obtain ⟨ty, vocab⟩ := p
    by_cases hm : vocab.any (fun kw => hasSub kw ql)
    · obtain ⟨t1, ht1⟩ := pull_ext k (bucket ctxs ty) acc
      by_cases hq : k ≤ (pull k acc (bucket ctxs ty)).length
      · refine ⟨t1, ?_⟩
        simp only [catFold]
        rw [if_pos hm, if_pos hq]
        exact ht1
      · obtain ⟨t2, ht2⟩ := ih (pull k acc (bucket ctxs ty))
        refine ⟨t1 ++ t2, ?_⟩
        simp only [catFold]
        rw [if_pos hm, if_neg hq, ht2, ht1, List.append_assoc]
    · obtain ⟨t, ht⟩ := ih acc
      refine ⟨t, ?_⟩
      simp only [catFold]
      rw [if_neg hm]
      exact ht

/-- The hour step only appends to the accumulator. -/
theorem hourGo_ext (ctxs : List Ctx) (k : Nat) :
    ∀ (os : List (Option Nat)) (acc : List Nat), ∃ t, hourGo ctxs k os acc = acc ++ t := by
  intro os
  induction os with
  | nil => intro acc; exact ⟨[], by simp [hourGo]⟩
  | cons o rest ih =>
    intro acc
    match o with
    | none =>
      obtain ⟨t, ht⟩ := ih acc
      exact ⟨t, by simpa [hourGo] using ht⟩
    | some h =>
      obtain ⟨t1, ht1⟩ := pull_ext k (bucket ctxs (hourLookupKey h)) acc
      by_cases hq : k ≤ (pull k acc (bucket ctxs (hourLookupKey h))).length
      · refine ⟨t1, ?_⟩
        simp only [hourGo]
        rw [if_pos hq]
        exact ht1
      · obtain ⟨t2, ht2⟩ := ih (pull k acc (bucket ctxs (hourLookupKey h)))
        refine ⟨t1 ++ t2, ?_⟩
        simp only [hourGo]
        rw [if_neg hq, ht2, ht1, List.append_assoc]

/-- The keyword step only appends to the accumulator. -/
theorem kwFold_ext (ctxs : List Ctx) (ql : String) (k : Nat) :
    ∀ (L : List String) (acc : List Nat), ∃ t, kwFold ctxs ql k L acc = acc ++ t := by
  intro L
  induction L with
  | nil => intro acc; exact ⟨[], by simp [kwFold]⟩
  | cons kw rest ih =>
    intro acc
    by_cases hm : hasSub kw ql
    · obtain ⟨t1, ht1⟩ := pull_ext k (bucket ctxs ("keyword_" ++ kw)) acc
      by_cases hq : k ≤ (pull k acc (bucket ctxs ("keyword_" ++ kw))).length
      · refine ⟨t1, ?_⟩
        simp only [kwFold]
        rw [if_pos hm, if_pos hq]
        exact ht1
      · obtain ⟨t2, ht2⟩ := ih (pull k acc (bucket ctxs ("keyword_" ++ kw)))
        refine ⟨t1 ++ t2, ?_⟩
        simp only [kwFold]
        rw [if_pos hm, if_neg hq, ht2, ht1, List.append_assoc]
    · obtain ⟨t, ht⟩ := ih acc
      refine ⟨t, ?_⟩
      simp only [kwFold]
      rw [if_neg hm]
      exact ht

/-- Steps 2-4 only append to what the earlier steps collected. -/
theorem hourStep_ext (ctxs : List Ctx) (ql : String) (k : Nat) (acc : List Nat) :
    ∃ t, hourStep ctxs ql k acc = acc ++ t := by
  unfold hourStep
  by_cases h : acc.length < k
  · simpa [h] using hourGo_ext ctxs k [pmHour ql, amHour ql, hhmmHour ql] acc
  · exact ⟨[], by simp [h]⟩

theorem kwStep_ext (ctxs : List Ctx) (ql : String) (k : Nat) (acc : List Nat) :
    ∃ t, kwStep ctxs ql k acc = acc ++ t := by
  unfold kwStep
  by_cases h : acc.length < k
  · simpa [h] using kwFold_ext ctxs ql k kvKeywords acc
  · exact ⟨[], by simp [h]⟩

theorem recencyStep_ext (ctxs : List Ctx) (k : Nat) (acc : List Nat) :
    ∃ t, recencyStep ctxs k acc = acc ++ t := by
  unfold recencyStep
  by_cases h : acc.length < k
  · simpa [h] using pull_ext k (recencyList ctxs.length k) acc
  · exact ⟨[], by simp [h]⟩

/-- The final result extends the category step's collection: everything the
category step collected precedes everything added later (hour, keyword,
recency). -/
theorem kvRetrieveIdx_ext_cat (ctxs : List Ctx) (q : String) (k : Nat) :
    ∃ t, kvRetrieveIdx ctxs q k = catStep ctxs (lowerStr q) k [] ++ t := by
  obtain ⟨t1, h1⟩ := hourStep_ext ctxs (lowerStr q) k (catStep ctxs (lowerStr q) k [])
  obtain ⟨t2, h2⟩ := kwStep_ext ctxs (lowerStr q) k (hourStep ctxs (lowerStr q) k (catStep ctxs (lowerStr q) k []))
  obtain ⟨t3, h3⟩ := recencyStep_ext ctxs k (kwStep ctxs (lowerStr q) k (hourStep ctxs (lowerStr q) k (catStep ctxs (lowerStr q) k [])))
  refine ⟨t1 ++ t2 ++ t3, ?_⟩
  unfold kvRetrieveIdx
  rw [h3, h2, h1]
  simp [List.append_assoc]

/-- The final result extends everything collected before the recency
fallback: recency-fallback items always come last. -/
theorem kvRetrieveIdx_ext_pre_recency (ctxs : List Ctx) (q : String) (k : Nat) :
    ∃ t, kvRetrieveIdx ctxs q k =
      kwStep ctxs (lowerStr q) k (hourStep ctxs (lowerStr q) k (catStep ctxs (lowerStr q) k [])) ++ t := by
  simpa [kvRetrieveIdx] using
    recencyStep_ext ctxs k
      (kwStep ctxs (lowerStr q) k (hourStep ctxs (lowerStr q) k (catStep ctxs (lowerStr q) k [])))

/-- Entered below quota, a bucket scan never exceeds the quota. -/
theorem pull_le (k : Nat) (b : List Nat) :
    ∀ acc, acc.length < k → (pull k acc b).length ≤ k := by
  induction b with
  | nil => intro acc h; simpa [pull] using Nat.le_of_lt h
  | cons i rest ih =>
    intro acc h
    by_cases hc : i ∈ acc
    · simp only [pull]
      rw [if_pos hc]
      exact ih acc h
    · by_cases hq : k ≤ (acc ++ [i]).length
      · simp only [pull]
        rw [if_neg hc, if_pos hq]
        simp only [List.length_append, List.length_singleton]
        omega
      · simp only [pull]
        rw [if_neg hc, if_neg hq]
        exact ih (acc ++ [i]) (by simp at hq ⊢; omega)

/-- Entered below quota, the category step never exceeds the quota. -/
theorem catFold_le (ctxs : List Ctx) (ql : String) (k : Nat) :
    ∀ (L : List (String × List String)) (acc : List Nat),
      acc.length < k → (catFold ctxs ql k L acc).length ≤ k := by
  intro L
  induction L with
  | nil => intro acc h; simpa [catFold] using Nat.le_of_lt h
  | cons p rest ih =>
    intro acc h
    obtain ⟨ty, vocab⟩ := p
    by_cases hm : vocab.any (fun kw => hasSub kw ql)
    · by_cases hq : k ≤ (pull k acc (bucket ctxs ty)).length
      · simp only [catFold]
        rw [if_pos hm, if_pos hq]
        exact pull_le k (bucket ctxs ty) acc h
      · simp only [catFold]
        rw [if_pos hm, if_neg hq]
        exact ih _ (by omega)
    · simp only [catFold]
      rw [if_neg hm]
      exact ih acc h

/-- Entered below quota, the hour step never exceeds the quota. -/
theorem hourGo_le (ctxs : List Ctx) (k : Nat) :
    ∀ (os : List (Option Nat)) (acc : List Nat),
      acc.length < k → (hourGo ctxs k os acc).length ≤ k := by
  intro os
  induction os with
  | nil => intro acc h; simpa [hourGo] using Nat.le_of_lt h
  | cons o rest ih =>
    intro acc h
    match o with
    | none =>
      simp only [hourGo]
      exact ih acc h
    | some hr =>
      by_cases hq : k ≤ (pull k acc (bucket ctxs (hourLookupKey hr))).length
      · simp only [hourGo]
        rw [if_pos hq]
        exact pull_le k _ acc h
      · simp only [hourGo]
        rw [if_neg hq]
        exact ih _ (by omega)

/-- Entered below quota, the keyword step never exceeds the quota. -/
theorem kwFold_le (ctxs : List Ctx) (ql : String) (k : Nat) :
    ∀ (L : List String) (acc : List Nat),
      acc.length < k → (kwFold ctxs ql k L acc).length ≤ k := by
  intro L
  induction L with
  | nil => intro acc h; simpa [kwFold] using Nat.le_of_lt h
  | cons kw rest ih =>
    intro acc h
    by_cases hm : hasSub kw ql
    · by_cases hq : k ≤ (pull k acc (bucket ctxs ("keyword_" ++ kw))).length
      · simp only [kwFold]
        rw [if_pos hm, if_pos hq]
        exact pull_le k _ acc h
      · simp only [kwFold]
        rw [if_pos hm, if_neg hq]
        exact ih _ (by omega)
    · simp only [kwFold]
      rw [if_neg hm]
      exact ih acc h

/-- Bucket scans preserve freedom from duplicates. -/
theorem pull_nodup (k : Nat) (b : List Nat) :
    ∀ acc, acc.Nodup → (pull k acc b).Nodup := by
  induction b with
  | nil => intro acc h; simpa [pull] using h
  | cons i rest ih =>
    intro acc h
    by_cases hc : i ∈ acc
    · simp only [pull]
      rw [if_pos hc]
      exact ih acc h
    · have h2 : (acc ++ [i]).Nodup := by
        rw [List.nodup_append]
        refine ⟨h, List.nodup_singleton i, fun a ha hb => ?_⟩
        rw [List.mem_singleton] at hb
        exact hc (hb ▸ ha)
      by_cases hq : k ≤ (acc ++ [i]).length
      · simp only [pull]
        rw [if_neg hc, if_pos hq]
        exact h2
      · simp only [pull]
        rw [if_neg hc, if_neg hq]
        exact ih (acc ++ [i]) h2

/-- If the accumulator is below quota and the (duplicate-free) bucket holds
enough items not yet collected, the scan fills the quota exactly. -/
theorem pull_reach (k : Nat) (b : List Nat) :
    ∀ acc, acc.length < k → b.Nodup →
      k ≤ acc.length + (b.filter (fun i => decide (¬ i ∈ acc))).length →
      (pull k acc b).length = k := by
  induction b with
  | nil =>
    intro acc hlt _ hcount
    simp at hcount
    omega
  | cons i rest ih =>
    intro acc hlt hnd hcount
    by_cases hc : i ∈ acc
    · simp only [pull]
      rw [if_pos hc]
      refine ih acc hlt hnd.of_cons ?_
      simpa [List.filter_cons, hc] using hcount
    · by_cases hq : k ≤ (acc ++ [i]).length
      · simp only [pull]
        rw [if_neg hc, if_pos hq]
        simp only [List.length_append, List.length_singleton]
        simp at hq
        omega
      · simp only [pull]
        rw [if_neg hc, if_neg hq]
        have hmemi : i ∉ rest := (List.nodup_cons.mp hnd).1
        have hfeq : rest.filter (fun j => decide (¬ j ∈ acc ++ [i])) =
            rest.filter (fun j => decide (¬ j ∈ acc)) := by
          refine List.filter_congr ?_
          intro j hj
          have hji : j ≠ i := fun h => hmemi (h ▸ hj)
          simp [List.mem_append, hji]
        refine ih (acc ++ [i]) (by simp at hq ⊢; omega) (List.nodup_cons.mp hnd).2 ?_
        rw [hfeq]
        have : (List.filter (fun j => decide (¬ j ∈ acc)) (i :: rest)).length =
            (List.filter (fun j => decide (¬ j ∈ acc)) rest).length + 1 := by
          simp [List.filter_cons, hc]
        simp only [List.length_append, List.length_singleton]
        omega

/-- The category step preserves freedom from duplicates. -/
theorem catFold_nodup (ctxs : List Ctx) (ql : String) (k : Nat) :
    ∀ (L : List (String × List String)) (acc : List Nat),
      acc.Nodup → (catFold ctxs ql k L acc).Nodup := by
  intro L
  induction L with
  | nil => intro acc h; simpa [catFold] using h
  | cons p rest ih =>
    intro acc h
    obtain ⟨ty, vocab⟩ := p
    by_cases hm : vocab.any (fun kw => hasSub kw ql)
    · by_cases hq : k ≤ (pull k acc (bucket ctxs ty)).length
      · simp only [catFold]
        rw [if_pos hm, if_pos hq]
        exact pull_nodup k _ acc h
      · simp only [catFold]
        rw [if_pos hm, if_neg hq]
        exact ih _ (pull_nodup k _ acc h)
    · simp only [catFold]
      rw [if_neg hm]
      exact ih acc h

/-- The hour step preserves freedom from duplicates. -/
theorem hourGo_nodup (ctxs : List Ctx) (k : Nat) :
    ∀ (os : List (Option Nat)) (acc : List Nat),
      acc.Nodup → (hourGo ctxs k os acc).Nodup := by
  intro os
  induction os with
  | nil => intro acc h; simpa [hourGo] using h
  | cons o rest ih =>
    intro acc h
    match o with
    | none =>
      simp only [hourGo]
      exact ih acc h
    | some hr =>
      by_cases hq : k ≤ (pull k acc (bucket ctxs (hourLookupKey hr))).length
      · simp only [hourGo]
        rw [if_pos hq]
        exact pull_nodup k _ acc h
      · simp only [hourGo]
        rw [if_neg hq]
        exact ih _ (pull_nodup k _ acc h)

/-- The keyword step preserves freedom from duplicates. -/
theorem kwFold_nodup (ctxs : List Ctx) (ql : String) (k : Nat) :
    ∀ (L : List String) (acc : List Nat),
      acc.Nodup → (kwFold ctxs ql k L acc).Nodup := by
  intro L
  induction L with
  | nil => intro acc h; simpa [kwFold] using h
  | cons kw rest ih =>
    intro acc h
    by_cases hm : hasSub kw ql
    · by_cases hq : k ≤ (pull k acc (bucket ctxs ("keyword_" ++ kw))).length
      · simp only [kwFold]
        rw [if_pos hm, if_pos hq]
        exact pull_nodup k _ acc h
      · simp only [kwFold]
        rw [if_pos hm, if_neg hq]
        exact ih _ (pull_nodup k _ acc h)
    · simp only [kwFold]
      rw [if_neg hm]
      exact ih acc h

theorem hourStep_nodup (ctxs : List Ctx) (ql : String) (k : Nat) (acc : List Nat)
    (h : acc.Nodup) : (hourStep ctxs ql k acc).Nodup := by
  unfold hourStep
  split
  · exact hourGo_nodup ctxs k _ acc h
  · exact h

theorem kwStep_nodup (ctxs : List Ctx) (ql : String) (k : Nat) (acc : List Nat)
    (h : acc.Nodup) : (kwStep ctxs ql k acc).Nodup := by
  unfold kwStep
  split
  · exact kwFold_nodup ctxs ql k kvKeywords acc h
  · exact h

theorem recencyStep_nodup (ctxs : List Ctx) (k : Nat) (acc : List Nat)
    (h : acc.Nodup) : (recencyStep ctxs k acc).Nodup := by
  unfold recencyStep
  split
  · exact pull_nodup k _ acc h
  · exact h

theorem hourStep_le (ctxs : List Ctx) (ql : String) (k : Nat) (acc : List Nat)
    (h : acc.length ≤ k) : (hourStep ctxs ql k acc).length ≤ k := by
  unfold hourStep
  split
  · exact hourGo_le ctxs k _ acc ‹_›
  · exact h

theorem kwStep_le (ctxs : List Ctx) (ql : String) (k : Nat) (acc : List Nat)
    (h : acc.length ≤ k) : (kwStep ctxs ql k acc).length ≤ k := by
  unfold kwStep
  split
  · exact kwFold_le ctxs ql k kvKeywords acc ‹_›
  · exact h

/-- The retrieved ordinals are pairwise distinct: the `seen` set
de-duplicates across all four steps. -/
theorem kvRetrieveIdx_nodup (ctxs : List Ctx) (q : String) (k : Nat) :
    (kvRetrieveIdx ctxs q k).Nodup := by
  unfold kvRetrieveIdx
  exact recencyStep_nodup _ _ _
    (kwStep_nodup _ _ _ _
      (hourStep_nodup _ _ _ _
        (catFold_nodup ctxs (lowerStr q) k typeVocab [] List.nodup_nil)))

/-- The recency fallback pool: the last `min k n` ordinals, newest first,
without duplicates. -/
theorem recencyList_nodup (n k : Nat) : (recencyList n k).Nodup :=
  List.nodup_reverse.mpr ((List.nodup_range n).sublist (List.drop_sublist (n - k) (List.range n)))

theorem recencyList_length (n k : Nat) (h : k ≤ n) : (recencyList n k).length = k := by
  simp [recencyList, Nat.sub_sub_self h]

/-- Core of C4: with a corpus at least as large as the quota, the cascade
always collects exactly `top_k` ordinals — the recency fallback pads any
shortfall, because the last `top_k` stored items can contain at most as many
already-collected items as are missing. -/
theorem kvRetrieveIdx_length (ctxs : List Ctx) (q : String) (k : Nat)
    (hk : 1 ≤ k) (hn : k ≤ ctxs.length) : (kvRetrieveIdx ctxs q k).length = k := by
  unfold kvRetrieveIdx
  have h1 : (catStep ctxs (lowerStr q) k []).length ≤ k := by
    unfold catStep
    exact catFold_le ctxs (lowerStr q) k typeVocab [] (by simpa using hk)
  have hnd1 : (catStep ctxs (lowerStr q) k []).Nodup := by
    unfold catStep
    exact catFold_nodup ctxs (lowerStr q) k typeVocab [] List.nodup_nil
  set a3 := kwStep ctxs (lowerStr q) k
    (hourStep ctxs (lowerStr q) k (catStep ctxs (lowerStr q) k [])) with ha3
  have h3 : a3.length ≤ k := kwStep_le _ _ _ _ (hourStep_le _ _ _ _ h1)
  have hnd3 : a3.Nodup := kwStep_nodup _ _ _ _ (hourStep_nodup _ _ _ _ hnd1)
  unfold recencyStep
  split
  · rename_i hlt
    set b := recencyList ctxs.length k with hb
    have hbnd : b.Nodup := recencyList_nodup ctxs.length k
    have hblen : b.length = k := recencyList_length ctxs.length k hn
    refine pull_reach k b a3 hlt hbnd ?_
    have hsplit := List.length_eq_length_filter_add (l := b) (fun i => decide (i ∈ a3))
    have hin : (b.filter (fun i => decide (i ∈ a3))).length ≤ a3.length := by
      have hfnd : (b.filter (fun i => decide (i ∈ a3))).Nodup := hbnd.filter _
      have hsub : ∀ x ∈ b.filter (fun i => decide (i ∈ a3)), x ∈ a3 := by
        intro x hx
        simpa using (List.mem_filter.mp hx).2
      calc (b.filter (fun i => decide (i ∈ a3))).length
        = (b.filter (fun i => decide (i ∈ a3))).toFinset.card :=
            (List.toFinset_card_of_nodup hfnd).symm
        _ ≤ a3.toFinset.card := by
            refine Finset.card_le_card ?_
            intro x hx
            rw [List.mem_toFinset] at hx ⊢
            exact hsub x hx
        _ ≤ a3.length := a3.toFinset_card_le
    have hneg : (b.filter (fun i => decide (¬ i ∈ a3))).length =
        (b.filter (fun i => !(decide (i ∈ a3)))).length := by
      simp only [decide_not]
    omega
  · omega

/-- Scanning a bucket with nothing collected yet always takes the bucket's
first item. -/
theorem head_mem_pull (k i : Nat) (rest : List Nat) : i ∈ pull k [] (i :: rest) := by
  simp only [pull]
  rw [if_neg (List.not_mem_nil i)]
  by_cases hq : k ≤ ([] ++ [i] : List Nat).length
  · rw [if_pos hq]; simp
  · rw [if_neg hq]
    obtain ⟨t, ht⟩ := pull_ext k rest ([] ++ [i])
    rw [ht]
    simp

/-- If some table entry is eligible, the category step collects at least one
item from the bucket of the first eligible entry (earlier entries either do
not match the query or have empty buckets, so nothing is collected before
it and the quota cannot be hit first). -/
theorem catFold_hits (ctxs : List Ctx) (ql : String) (k : Nat) (hk : 1 ≤ k) :
    ∀ (L : List (String × List String)) (ty : String) (vocab : List String),
      L.find? (eligB ctxs ql) = some (ty, vocab) →
      ∃ i, i ∈ catFold ctxs ql k L [] ∧ i ∈ bucket ctxs ty := by
  intro L
  induction L with
  | nil => intro ty vocab h; simp at h
  | cons p rest ih =>
    intro ty vocab hfind
    obtain ⟨ty0, voc0⟩ := p
    by_cases h0 : eligB ctxs ql (ty0, voc0)
    · rw [List.find?_cons_of_pos _ h0] at hfind
      have h2 : (ty0, voc0) = (ty, vocab) := by injection hfind
      have hty : ty0 = ty := congrArg Prod.fst h2
      have hvoc : voc0 = vocab := congrArg Prod.snd h2
      subst hty hvoc
      obtain ⟨hany, hne⟩ := Bool.and_eq_true_iff.mp h0
      obtain ⟨i, b', hb⟩ : ∃ i b', bucket ctxs ty0 = i :: b' := by
        cases hbk : bucket ctxs ty0 with
        | nil => rw [hbk] at hne; simp at hne
        | cons i b' => exact ⟨i, b', rfl⟩
      have hmem : i ∈ pull k [] (bucket ctxs ty0) := by
        rw [hb]; exact head_mem_pull k i b'
      refine ⟨i, ?_, by rw [hb]; exact List.mem_cons_self i b'⟩
      simp only [catFold]
      rw [if_pos hany]
      by_cases hq : k ≤ (pull k [] (bucket ctxs ty0)).length
      · rw [if_pos hq]; exact hmem
      · rw [if_neg hq]
        obtain ⟨t, ht⟩ := catFold_ext ctxs ql k rest (pull k [] (bucket ctxs ty0))
        rw [ht]
        exact List.mem_append_left t hmem
    · rw [List.find?_cons_of_neg _ h0] at hfind
      obtain ⟨i, hi, hib⟩ := ih ty vocab hfind
      refine ⟨i, ?_, hib⟩
      simp only [catFold]
      by_cases hany : voc0.any (fun kw => hasSub kw ql)
      · have hemp : bucket ctxs ty0 = [] := by
          have := h0
          unfold eligB at this
          simp only [hany, Bool.true_and, Bool.not_eq_true'] at this
          exact List.isEmpty_iff.mp (by simpa using this)
        rw [if_pos hany, hemp]
        have hp : pull k [] ([] : List Nat) = [] := by simp [pull]
        rw [hp]
        have hq : ¬ k ≤ ([] : List Nat).length := by simp; omega
        rw [if_neg hq]
        exact hi
      · rw [if_neg hany]
        exact hi

/-- Over an empty corpus every bucket is empty. -/
theorem bucket_nil (key : String) : bucket [] key = [] := by
  simp [bucket]

theorem pull_nil_acc_nil (k : Nat) : pull k ([] : List Nat) ([] : List Nat) = [] := by
  simp [pull]

/-- Over an empty corpus and positive quota the category step collects
nothing. -/
theorem catFold_nil (ql : String) (k : Nat) (hk : 1 ≤ k) :
    ∀ L : List (String × List String), catFold [] ql k L [] = [] := by
  intro L
  induction L with
  | nil => simp [catFold]
  | cons p rest ih =>
    obtain ⟨ty, vocab⟩ := p
    simp only [catFold]
    by_cases hany : vocab.any (fun kw => hasSub kw ql)
    · rw [if_pos hany, bucket_nil, pull_nil_acc_nil]
      rw [if_neg (by simp; omega)]
      exact ih
    · rw [if_neg hany]
      exact ih

theorem hourGo_nil (k : Nat) (hk : 1 ≤ k) :
    ∀ os : List (Option Nat), hourGo [] k os [] = [] := by
  intro os
  induction os with
  | nil => simp [hourGo]
  | cons o rest ih =>
    match o with
    | none => simp only [hourGo]; exact ih
    | some h =>
      simp only [hourGo]
      rw [bucket_nil, pull_nil_acc_nil]
      rw [if_neg (by simp; omega)]
      exact ih

theorem kwFold_nil (ql : String) (k : Nat) (hk : 1 ≤ k) :
    ∀ L : List String, kwFold [] ql k L [] = [] := by
  intro L
  induction L with
  | nil => simp [kwFold]
  | cons kw rest ih =>
    simp only [kwFold]
    by_cases hm : hasSub kw ql
    · rw [if_pos hm, bucket_nil, pull_nil_acc_nil]
      rw [if_neg (by simp; omega)]
      exact ih
    · rw [if_neg hm]
      exact ih

/-- Over an empty corpus and positive quota the whole cascade collects
nothing (the recency pool over zero stored items is empty too). -/
theorem kvRetrieveIdx_nil (q : String) (k : Nat) (hk : 1 ≤ k) :
    kvRetrieveIdx [] q k = [] := by
  have h0 : catStep [] (lowerStr q) k [] = [] := by
    unfold catStep
    exact catFold_nil (lowerStr q) k hk typeVocab
  have h1 : hourStep [] (lowerStr q) k [] = [] := by
    unfold hourStep
    rw [if_pos (by simpa using hk)]
    exact hourGo_nil k hk _
  have h2 : kwStep [] (lowerStr q) k [] = [] := by
    unfold kwStep
    rw [if_pos (by simpa using hk)]
    exact kwFold_nil (lowerStr q) k hk kvKeywords
  have h3 : recencyStep [] k [] = [] := by
    unfold recencyStep
    rw [if_pos (by simpa using hk)]
    have hr : recencyList ([] : List Ctx).length k = [] := by simp [recencyList]
    rw [hr, pull_nil_acc_nil]
  unfold kvRetrieveIdx
  rw [h0, h1, h2, h3]

/-! ## Lemmas about the vector search -/

theorem length_insertByDist (p : Nat × Int) (l : List (Nat × Int)) :
    (insertByDist p l).length = l.length + 1 := by
  induction l with
  | nil => simp [insertByDist]
  | cons q t ih =>
    simp only [insertByDist]
    split
    · simp
    · simp [ih]

theorem length_sortByDist (l : List (Nat × Int)) : (sortByDist l).length = l.length := by
  induction l with
  | nil => simp [sortByDist]
  | cons p t ih => simp [sortByDist, length_insertByDist, ih]

theorem mem_insertByDist {x p : Nat × Int} {l : List (Nat × Int)}
    (h : x ∈ insertByDist p l) : x = p ∨ x ∈ l := by
  induction l with
  | nil => simp [insertByDist] at h; exact Or.inl h
  | cons q t ih =>
    simp only [insertByDist] at h
    split at h
    · rcases List.mem_cons.mp h with h1 | h2
      · exact Or.inl h1
      · exact Or.inr h2
    · rcases List.mem_cons.mp h with h1 | h2
      · exact Or.inr (h1 ▸ List.mem_cons_self q t)
      · rcases ih h2 with h3 | h4
        · exact Or.inl h3
        · exact Or.inr (List.mem_cons_of_mem q h4)

theorem mem_sortByDist {x : Nat × Int} {l : List (Nat × Int)}
    (h : x ∈ sortByDist l) : x ∈ l := by
  induction l with
  | nil => simp [sortByDist] at h
  | cons p t ih =>
    simp only [sortByDist] at h
    rcases mem_insertByDist h with h1 | h2
    · exact h1 ▸ List.mem_cons_self p t
    · exact List.mem_cons_of_mem p (ih h2)

/-- The nearest-neighbour search returns `min k n` pairs whose indices all
lie inside the stored-item range. -/
theorem knnSearch_spec (embs : List (List Int)) (q : List Int) (k : Nat) :
    (knnSearch embs q k).length = min k embs.length ∧
      ∀ p ∈ knnSearch embs q k, p.1 < embs.length := by
  constructor
  · unfold knnSearch
    rw [List.length_take, length_sortByDist, List.length_map, List.length_range]
  · intro p hp
    unfold knnSearch at hp
    have h1 : p ∈ sortByDist ((List.range embs.length).map
        (fun i => (i, l2sq (embs.getD i []) q))) := List.mem_of_mem_take hp
    have h2 := mem_sortByDist h1
    obtain ⟨i, hi, hpi⟩ := List.mem_map.mp h2
    rw [← hpi]
    exact List.mem_range.mp hi

/-! ## Lemmas about cache keys -/

theorem hour_append_head (s : String) : ("hour_" ++ s).data.head? = some (Char.ofNat 104) := by
  rw [String.data_append]; rfl

theorem keyword_append_head (s : String) : ("keyword_" ++ s).data.head? = some (Char.ofNat 107) := by
  rw [String.data_append]; rfl

theorem hour_append_inj {s t : String} (h : "hour_" ++ s = "hour_" ++ t) : s = t := by
  have h2 := congrArg String.data h
  rw [String.data_append, String.data_append] at h2
  have h3 := List.append_cancel_left h2
  cases s with
  | mk ds =>
    cases t with
    | mk dt =>
      simp only at h3
      exact congrArg String.mk h3

/-- Membership in a cache bucket. -/
theorem mem_bucket {ctxs : List Ctx} {key : String} {i : Nat} :
    i ∈ bucket ctxs key ↔ i < ctxs.length ∧ key ∈ keysOf (ctxs.getD i []) := by
  simp [bucket, List.mem_filter, List.mem_range]

/-- A key whose first character is neither the one of `hour_` nor of
`keyword_` keys is in an item's key set exactly when it is the item's type
key. -/
theorem mem_keysOf_of_head {c : Ctx} {ty : String}
    (h1 : ty.data.head? ≠ some (Char.ofNat 104))
    (h2 : ty.data.head? ≠ some (Char.ofNat 107)) :
    ty ∈ keysOf c ↔ typeName c = ty := by
  unfold keysOf
  constructor
  · intro h
    rcases List.mem_append.mp h with h3 | h4
    · rcases List.mem_append.mp h3 with h5 | h6
      · simp only [List.mem_singleton] at h5
        exact h5.symm
      · exfalso
        cases hga : ctxGet c "time" with
        | none => rw [hga] at h6; simp at h6
        | some t =>
          rw [hga] at h6
          simp at h6
          apply h1
          rw [h6]
          unfold hourStoreKey
          exact hour_append_head _
    · exfalso
      obtain ⟨kw, _, hkw⟩ := List.mem_map.mp h4
      apply h2
      rw [← hkw]
      exact keyword_append_head kw
  · intro h
    rw [← h]
    simp

/-- The hour-bucket membership characterisation behind C10: for items whose
type is one of the four data categories and whose timestamp contains a
space, the bucket probed for parsed hour `H` holds the item exactly when the
raw hour substring of its timestamp is the zero-padded decimal form of `H`. -/
theorem mem_hour_bucket {ctxs : List Ctx} {i H : Nat} {t : String}
    (hi : i < ctxs.length)
    (htype : typeName (ctxs.getD i []) ∈ ["calendar", "email", "fitness", "music"])
    (ht : ctxGet (ctxs.getD i []) "time" = some t)
    (hsp : hasSub " " t = true) :
    i ∈ bucket ctxs (hourLookupKey H) ↔ rawHour t = pad2 H := by
  rw [mem_bucket]
  constructor
  · rintro ⟨-, hk⟩
    unfold keysOf at hk
    rcases List.mem_append.mp hk with h3 | h4
    · rcases List.mem_append.mp h3 with h5 | h6
      · exfalso
        simp only [List.mem_singleton] at h5
        have hh : (hourLookupKey H).data.head? = some (Char.ofNat 104) :=
          hour_append_head (pad2 H)
        rw [← h5] at htype
        simp only [List.mem_cons, List.not_mem_nil, or_false] at htype
        rcases htype with h | h | h | h <;> rw [h] at hh <;> exact absurd hh (by decide)
      · rw [ht] at h6
        simp only [List.mem_singleton] at h6
        unfold hourLookupKey hourStoreKey at h6
        rw [if_pos hsp] at h6
        exact (hour_append_inj h6).symm
    · exfalso
      obtain ⟨kw, _, hkw⟩ := List.mem_map.mp h4
      have hh : (hourLookupKey H).data.head? = some (Char.ofNat 104) :=
        hour_append_head (pad2 H)
      rw [← hkw] at hh
      rw [keyword_append_head kw] at hh
      exact absurd hh (by decide)
  · intro h
    refine ⟨hi, ?_⟩
    unfold keysOf
    refine List.mem_append.mpr (Or.inl (List.mem_append.mpr (Or.inr ?_)))
    rw [ht]
    simp only [List.mem_singleton]
    unfold hourLookupKey hourStoreKey
    rw [if_pos hsp, h]

/-! ## Lemmas about the pipeline -/

theorem ingest_ok {ud : UserData} (lats : StageLats) (h : ud.malformed = none) :
    ingestStage lats.ingestion { user_data := some ud } = .ok (stAfterIngest ud lats) := by
  unfold ingestStage udOf stAfterIngest
  simp [h]

/-- On well-formed user data the pipeline is the straight-line composition of
the four stages with the `total` key written at the end. -/
theorem generate_nudge_ok (cm : CMRetrieve) (llm : LLMClient) (lats : StageLats)
    {ud : UserData} (h : ud.malformed = none) :
    generate_nudge cm llm lats ud =
      { generateStage llm lats.nudgeGen
          (analyzeStage llm lats.analysis (retrieveStage cm (stAfterIngest ud lats))) with
        latTotal := some lats.total } := by
  unfold generate_nudge
  simp only [ingest_ok lats h]

theorem retrieveStage_fields (cm : CMRetrieve) (st : PState) :
    (retrieveStage cm st).latIngestion = st.latIngestion ∧
    (retrieveStage cm st).latRetrieval.isSome = true ∧
    (retrieveStage cm st).latAnalysis = st.latAnalysis ∧
    (retrieveStage cm st).latNudgeGen = st.latNudgeGen ∧
    (retrieveStage cm st).latTotal = st.latTotal ∧
    (retrieveStage cm st).analysis = st.analysis ∧
    (retrieveStage cm st).error = st.error ∧
    (retrieveStage cm st).tokInput = st.tokInput ∧
    (retrieveStage cm st).tokOutput = st.tokOutput := by
  unfold retrieveStage
  simp

/-- A failing LLM call during analysis writes the fallback analysis, the
error note, and the analysis latency, and changes nothing else. -/
theorem analyzeStage_fail (llm : LLMClient) (lat : ℚ) (st : PState) (e : String)
    (h : llm (analysisPrompt st.context) = .error e) :
    analyzeStage llm lat st =
      { st with
        error := some ("Analysis error: " ++ e)
        analysis := some "Unable to analyze context."
        latAnalysis := some lat } := by
  unfold analyzeStage
  rw [h]

theorem analyzeStage_fields (llm : LLMClient) (lat : ℚ) (st : PState) :
    (analyzeStage llm lat st).latAnalysis = some lat ∧
    (analyzeStage llm lat st).latIngestion = st.latIngestion ∧
    (analyzeStage llm lat st).latRetrieval = st.latRetrieval ∧
    (analyzeStage llm lat st).latNudgeGen = st.latNudgeGen ∧
    (analyzeStage llm lat st).latTotal = st.latTotal ∧
    (analyzeStage llm lat st).analysis.isSome = true ∧
    st.tokInput ≤ (analyzeStage llm lat st).tokInput ∧
    st.tokOutput ≤ (analyzeStage llm lat st).tokOutput := by
  unfold analyzeStage
  cases llm (analysisPrompt st.context) <;> simp

/-- The generate stage always writes a nudge (real or fallback) and its
latency key, preserves the analysis and the earlier latency keys, never
erases an error, and only adds token counts. -/
theorem generateStage_fields (llm : LLMClient) (lat : ℚ) (st : PState) :
    (generateStage llm lat st).analysis = st.analysis ∧
    (generateStage llm lat st).nudge.isSome = true ∧
    (generateStage llm lat st).latNudgeGen = some lat ∧
    (generateStage llm lat st).latIngestion = st.latIngestion ∧
    (generateStage llm lat st).latRetrieval = st.latRetrieval ∧
    (generateStage llm lat st).latAnalysis = st.latAnalysis ∧
    (generateStage llm lat st).latTotal = st.latTotal ∧
    (st.error.isSome = true → (generateStage llm lat st).error.isSome = true) ∧
    st.tokInput ≤ (generateStage llm lat st).tokInput ∧
    st.tokOutput ≤ (generateStage llm lat st).tokOutput := by
  unfold generateStage
  cases llm (nudgePrompt st.context (st.analysis.getD "") (musicContext (udOf st))) <;> simp

theorem vdbSearch_nil (enc : String → List Int) (q : String) (k : Nat) :
    vdbSearch enc [] q k = [] := by
  simp [vdbSearch, knnSearch, sortByDist, List.take_nil]

/-! ## The claims -/

/-- C2: for every non-empty corpus and query, Semantic Index retrieval with
`top_k` greater than the corpus size returns exactly `corpus_size` retrieved
sentences, the nearest-neighbour search runs with `k = min(top_k, item
count)`, and no returned index lies outside the stored item list. -/
theorem nudger_c2 (enc : String → List Int) (ctxs : List Ctx) (q : String) (k : Nat)
    (hne : ctxs ≠ []) (hk : ctxs.length < k) :
    (vdbRetrievedList enc ctxs q k).length = ctxs.length ∧
    (vdbSearch enc ctxs q k).length = min k ctxs.length ∧
    (∀ p ∈ vdbSearch enc ctxs q k, p.1 < ctxs.length) := by
  have hs := knnSearch_spec ((ctxs.map formatCtx).map enc) (enc q)
      (min k (ctxs.map formatCtx).length)
  have hlen : (vdbSearch enc ctxs q k).length = min k ctxs.length := by
    unfold vdbSearch
    rw [hs.1]
    simp only [List.length_map]
    omega
  have hmem : ∀ p ∈ vdbSearch enc ctxs q k, p.1 < ctxs.length := by
    intro p hp
    have := hs.2 p hp
    simpa using this
  refine ⟨?_, hlen, hmem⟩
  have hflt : ((vdbSearch enc ctxs q k).map (fun p => p.1)).filter
      (fun i => decide (i < (ctxs.map formatCtx).length)) =
      (vdbSearch enc ctxs q k).map (fun p => p.1) := by
    refine List.filter_eq_self.mpr ?_
    intro a ha
    obtain ⟨p, hp, hpa⟩ := List.mem_map.mp ha
    simp only [List.length_map, decide_eq_true_eq]
    rw [← hpa]
    exact hmem p hp
  simp only [vdbRetrievedList]
  rw [List.length_map, hflt, List.length_map, hlen]
  omega

/-- C2 witness at a concrete corpus and `top_k` bigger than its size. -/
theorem nudger_c2_witness :
    cexCorpus ≠ [] ∧ cexCorpus.length < 10 ∧
    (vdbRetrievedList exEnc cexCorpus "hello" 10).length = cexCorpus.length :=
  ⟨by simp [cexCorpus], by decide,
    (nudger_c2 exEnc cexCorpus "hello" 10 (by simp [cexCorpus]) (by decide)).1⟩

/-- C3 counterexample: with `top_k = 0` the Multi-Key manager on an empty
corpus returns relevance 0.9, not 0 (the tier test is
`len(retrieved) >= top_k` and `0 >= 0` holds), refuting the claim for every
`top_k`. -/
theorem nudger_c3_cex :
    (kvRetrieve [] "recent" 0).context = "" ∧
    (kvRetrieve [] "recent" 0).relevance_score = 9 / 10 ∧
    ¬ ((9 : ℚ) / 10 = 0) :=
  ⟨rfl, rfl, by norm_num⟩

/-- C3 (amended): for every `top_k ≥ 1`, both Context Manager variants over
an empty corpus return empty context text and relevance 0 (and, being total
functions of their inputs, raise nothing). -/
theorem nudger_c3 (enc : String → List Int) (q : String) (k : Nat) (hk : 1 ≤ k) :
    (kvRetrieve [] q k).context = "" ∧
    (kvRetrieve [] q k).relevance_score = 0 ∧
    (vdbRetrieve enc [] q k).context = "" ∧
    (vdbRetrieve enc [] q k).relevance_score = 0 := by
  have h := kvRetrieveIdx_nil q k hk
  refine ⟨?_, ?_, ?_, ?_⟩
  · simp only [kvRetrieve]
    rw [h, List.take_nil]
    rfl
  · simp only [kvRetrieve]
    rw [h]
    simp only [List.length_nil]
    rw [if_neg (by omega), if_neg (by omega)]
  · simp only [vdbRetrieve, vdbRetrievedList]
    rw [vdbSearch_nil]
    rfl
  · simp only [vdbRetrieve]
    rw [vdbSearch_nil]

/-- C3 witness at `top_k = 3`. -/
theorem nudger_c3_witness :
    (1 : Nat) ≤ 3 ∧
    (kvRetrieve [] "anything" 3).relevance_score = 0 ∧
    (vdbRetrieve exEnc [] "anything" 3).relevance_score = 0 :=
  ⟨by decide, (nudger_c3 exEnc "anything" 3 (by decide)).2.1,
    (nudger_c3 exEnc "anything" 3 (by decide)).2.2.2⟩

/-- C4: over a duplicate-free corpus of at least `top_k` items, with
`top_k ≥ 1`, the cascade collects exactly `top_k` distinct items (the
recency fallback always pads the shortfall) so the relevance score is 0.9;
in general the score is 0.9 when `top_k` many were collected, 0.7 when some
but fewer were, and 0.0 when none were. -/
theorem nudger_c4 (ctxs : List Ctx) (q : String) (k : Nat)
    (hnd : ctxs.Nodup) (hk : 1 ≤ k) (hn : k ≤ ctxs.length) :
    (kvRetrieveIdx ctxs q k).length = k ∧
    (kvRetrieveIdx ctxs q k).Nodup ∧
    (kvRetrieve ctxs q k).relevance_score = 9 / 10 ∧
    (∀ (c2 : List Ctx) (q2 : String) (k2 : Nat),
      (kvRetrieve c2 q2 k2).relevance_score =
        if k2 ≤ (kvRetrieveIdx c2 q2 k2).length then 9 / 10
        else if 0 < (kvRetrieveIdx c2 q2 k2).length then 7 / 10 else 0) := by
  have hlen := kvRetrieveIdx_length ctxs q k hk hn
  refine ⟨hlen, kvRetrieveIdx_nodup ctxs q k, ?_, fun c2 q2 k2 => rfl⟩
  simp only [kvRetrieve]
  rw [hlen, if_pos (le_refl k)]

/-- C4 witness: a 4-item duplicate-free corpus with `top_k = 2` and a query
matching nothing still collects exactly 2 items via the recency fallback. -/
theorem nudger_c4_witness :
    cexCorpus.Nodup ∧ (1 : Nat) ≤ 2 ∧ (2 : Nat) ≤ cexCorpus.length ∧
    (kvRetrieveIdx cexCorpus "zzz" 2).length = 2 ∧
    (kvRetrieve cexCorpus "zzz" 2).relevance_score = 9 / 10 :=
  ⟨by decide, by decide, by decide,
    (nudger_c4 cexCorpus "zzz" 2 (by decide) (by decide) (by decide)).1,
    (nudger_c4 cexCorpus "zzz" 2 (by decide) (by decide) (by decide)).2.2.1⟩

/-- C6: the benchmark decision is the pure strict comparison
`semantic_relevance > multikey_relevance * 1.1`; on (0.9, 0.7) it chooses the
Semantic Index, on (0.75, 0.7) the Multi-Key Index, and on the boundary pair
(0.77, 0.7) the Multi-Key Index. -/
theorem nudger_c6 :
    (∀ v kv : ℚ, benchDecision v kv = true ↔ kv * (11 / 10) < v) ∧
    benchDecision (9 / 10) (7 / 10) = true ∧
    benchDecision (3 / 4) (7 / 10) = false ∧
    benchDecision (77 / 100) (7 / 10) = false := by
  refine ⟨fun v kv => by simp [benchDecision], ?_, ?_, ?_⟩
  · simp only [benchDecision, decide_eq_true_eq]
    norm_num
  · simp only [benchDecision, decide_eq_false_iff_not, not_lt]
    norm_num
  · simp only [benchDecision, decide_eq_false_iff_not, not_lt]
    norm_num

/-- C7: the hour step recognises exactly the three forms pm / am / 24-hour,
converting 12pm to 12, 12am to 0, other pm hours to `h + 12` and am hours to
`h`, keeping the 24-hour form as parsed; in particular "3pm meeting" parses
to bucket 15, "11am call" to 11, "12pm lunch" to 12 and "12am" to 0. -/
theorem nudger_c7 :
    pmHour (lowerStr "3pm meeting") = some 15 ∧
    amHour (lowerStr "3pm meeting") = none ∧
    hhmmHour (lowerStr "3pm meeting") = none ∧
    amHour (lowerStr "11am call") = some 11 ∧
    pmHour (lowerStr "12pm lunch") = some 12 ∧
    amHour (lowerStr "12am") = some 0 ∧
    hhmmHour (lowerStr "15:30") = some 15 ∧
    to24pm 12 = 12 ∧ to24am 12 = 0 ∧
    (∀ h : Nat, h ≠ 12 → to24pm h = h + 12) ∧
    (∀ h : Nat, h ≠ 12 → to24am h = h) := by
  refine ⟨by decide, by decide, by decide, by decide, by decide, by decide, by decide,
    by decide, by decide, ?_, ?_⟩
  · intro h hne
    simp [to24pm, hne]
  · intro h hne
    simp [to24am, hne]

/-- C7 witness instantiating the conversion rules at hours 3 and 11. -/
theorem nudger_c7_witness :
    (3 : Nat) ≠ 12 ∧ to24pm 3 = 15 ∧ (11 : Nat) ≠ 12 ∧ to24am 11 = 11 :=
  ⟨by decide, (nudger_c7).2.2.2.2.2.2.2.2.2.1 3 (by decide),
    by decide, (nudger_c7).2.2.2.2.2.2.2.2.2.2 11 (by decide)⟩

/-- C1 counterexample: the query "meeting music" contains the music
vocabulary term "music", the corpus holds a music item (ordinal 3), and
`top_k = 3 ≥ 1`, yet retrieval returns only the three calendar items — the
calendar category matches first and fills the whole quota, so no music item
is ever returned. -/
theorem nudger_c1_cex :
    hasSub "music" (lowerStr "meeting music") = true ∧
    typeName (cexCorpus.getD 3 []) = "music" ∧
    cexCorpus.length = 4 ∧
    kvRetrieveIdx cexCorpus "meeting music" 3 = [0, 1, 2] ∧
    (kvRetrieveIdx cexCorpus "meeting music" 3).map
        (fun i => typeName (cexCorpus.getD i [])) =
      ["calendar", "calendar", "calendar"] := by
  refine ⟨by decide, by decide, by decide, by decide, by decide⟩

/-- C1 (amended): for the FIRST category (in table order calendar, email,
fitness, music) whose vocabulary intersects the query and whose bucket is
non-empty, retrieval with `top_k ≥ 1` returns at least one item of that
category; every category-step item precedes any later-step (in particular
recency-fallback) item; and the cascade is exactly the composition
category → hour → keyword → recency. -/
theorem nudger_c1 (ctxs : List Ctx) (q : String) (k : Nat) (ty : String)
    (vocab : List String) (hk : 1 ≤ k)
    (hfind : typeVocab.find? (eligB ctxs (lowerStr q)) = some (ty, vocab)) :
    (∃ i, i ∈ kvRetrieveIdx ctxs q k ∧ i ∈ bucket ctxs ty ∧ i < ctxs.length ∧
      typeName (ctxs.getD i []) = ty) ∧
    (∃ t, kvRetrieveIdx ctxs q k = catStep ctxs (lowerStr q) k [] ++ t) ∧
    (∃ t, kvRetrieveIdx ctxs q k =
      kwStep ctxs (lowerStr q) k
        (hourStep ctxs (lowerStr q) k (catStep ctxs (lowerStr q) k [])) ++ t) ∧
    kvRetrieveIdx ctxs q k =
      recencyStep ctxs k (kwStep ctxs (lowerStr q) k
        (hourStep ctxs (lowerStr q) k (catStep ctxs (lowerStr q) k []))) := by
  have hty4 : (ty, vocab) ∈ typeVocab := List.mem_of_find?_eq_some hfind
  have hhead : ty.data.head? ≠ some (Char.ofNat 104) ∧
      ty.data.head? ≠ some (Char.ofNat 107) := by
    simp only [typeVocab, List.mem_cons, List.not_mem_nil, or_false,
      Prod.mk.injEq] at hty4
    rcases hty4 with ⟨h, -⟩ | ⟨h, -⟩ | ⟨h, -⟩ | ⟨h, -⟩ <;> rw [h] <;> exact ⟨by decide, by decide⟩
  obtain ⟨i, hicat, hib⟩ := catFold_hits ctxs (lowerStr q) k hk typeVocab ty vocab hfind
  obtain ⟨t1, ht1⟩ := kvRetrieveIdx_ext_cat ctxs q k
  have himem : i ∈ kvRetrieveIdx ctxs q k := by
    rw [ht1]
    exact List.mem_append_left t1 hicat
  have hbm := mem_bucket.mp hib
  exact ⟨⟨i, himem, hib, hbm.1, (mem_keysOf_of_head hhead.1 hhead.2).mp hbm.2⟩,
    kvRetrieveIdx_ext_cat ctxs q k, kvRetrieveIdx_ext_pre_recency ctxs q k, rfl⟩

/-- C1 witness: for the query "music" over the example corpus, the music
category is the first eligible one and its item is returned. -/
theorem nudger_c1_witness :
    (1 : Nat) ≤ 2 ∧
    typeVocab.find? (eligB cexCorpus (lowerStr "music")) =
      some ("music", ["music", "song", "track", "playlist"]) ∧
    (∃ i, i ∈ kvRetrieveIdx cexCorpus "music" 2 ∧ i ∈ bucket cexCorpus "music" ∧
      i < cexCorpus.length ∧ typeName (cexCorpus.getD i []) = "music") :=
  ⟨by decide, by decide,
    (nudger_c1 cexCorpus "music" 2 "music" ["music", "song", "track", "playlist"]
      (by decide) (by decide)).1⟩

/-- C10: `add_contexts` stores an item under the raw hour substring of its
timestamp while `retrieve` probes only the zero-padded two-digit key, so the
hour step can reach an item for parsed hour `H` exactly when the timestamp
writes the hour as the two-digit zero-padded decimal form of `H`; e.g. a
"… 9:00:00" timestamp lands in `hour_9`, never probed, while "… 09:00:00"
lands in `hour_09`. -/
theorem nudger_c10 (ctxs : List Ctx) (i H : Nat) (t : String)
    (hi : i < ctxs.length)
    (htype : typeName (ctxs.getD i []) ∈ ["calendar", "email", "fitness", "music"])
    (ht : ctxGet (ctxs.getD i []) "time" = some t)
    (hsp : hasSub " " t = true) :
    (i ∈ bucket ctxs (hourLookupKey H) ↔ rawHour t = pad2 H) ∧
    hourStoreKey t = "hour_" ++ rawHour t ∧
    hourLookupKey H = "hour_" ++ pad2 H ∧
    rawHour "2024-01-01 9:00:00" = "9" ∧
    rawHour "2024-01-01 09:00:00" = "09" ∧
    pad2 9 = "09" := by
  refine ⟨mem_hour_bucket hi htype ht hsp, ?_, rfl, by decide, by decide, by decide⟩
  unfold hourStoreKey
  rw [if_pos hsp]

/-- C10 witness: the first corpus item has timestamp "2024-01-01 09:00:00",
whose raw hour "09" is the padded form of 9, so it sits in the probed bucket;
its sibling fact `rawHour "… 9:00:00" = "9" ≠ "09"` shows the unpadded form
is unreachable. -/
theorem nudger_c10_witness :
    (0 : Nat) < cexCorpus.length ∧
    typeName (cexCorpus.getD 0 []) ∈ ["calendar", "email", "fitness", "music"] ∧
    ctxGet (cexCorpus.getD 0 []) "time" = some "2024-01-01 09:00:00" ∧
    hasSub " " "2024-01-01 09:00:00" = true ∧
    (0 ∈ bucket cexCorpus (hourLookupKey 9) ↔
      rawHour "2024-01-01 09:00:00" = pad2 9) :=
  ⟨by decide, by decide, by decide, by decide,
    (nudger_c10 cexCorpus 0 9 "2024-01-01 09:00:00"
      (by decide) (by decide) (by decide) (by decide)).1⟩

/-- C5: if the LLM client raises during the analysis stage, the pipeline
does not abort — the final state carries the fallback analysis text, a
populated error string, all four stage latency keys plus `total`, and a
nudge (the generate stage still ran); `generate_nudge` is a total function,
so no failure path raises. -/
theorem nudger_c5 (cm : CMRetrieve) (llm : LLMClient) (lats : StageLats)
    (ud : UserData) (e : String) (hok : ud.malformed = none)
    (hfail : llm (analysisPrompt ((retrieveStage cm (stAfterIngest ud lats)).context)) =
      .error e) :
    (generate_nudge cm llm lats ud).analysis = some "Unable to analyze context." ∧
    (generate_nudge cm llm lats ud).error.isSome = true ∧
    (generate_nudge cm llm lats ud).latIngestion.isSome = true ∧
    (generate_nudge cm llm lats ud).latRetrieval.isSome = true ∧
    (generate_nudge cm llm lats ud).latAnalysis.isSome = true ∧
    (generate_nudge cm llm lats ud).latNudgeGen.isSome = true ∧
    (generate_nudge cm llm lats ud).latTotal.isSome = true ∧
    (generate_nudge cm llm lats ud).nudge.isSome = true := by
  rw [generate_nudge_ok cm llm lats hok]
  have hana := analyzeStage_fail llm lats.analysis
    (retrieveStage cm (stAfterIngest ud lats)) e hfail
  rw [hana]
  obtain ⟨g1, g2, g3, g4, g5, g6, g7, g8, -, -⟩ :=
    generateStage_fields llm lats.nudgeGen
      { retrieveStage cm (stAfterIngest ud lats) with
        error := some ("Analysis error: " ++ e)
        analysis := some "Unable to analyze context."
        latAnalysis := some lats.analysis }
  obtain ⟨r1, r2, -, -, -, -, -, -, -⟩ :=
    retrieveStage_fields cm (stAfterIngest ud lats)
  have r1a : (retrieveStage cm (stAfterIngest ud lats)).latIngestion =
      some lats.ingestion := by
    rw [r1]
    rfl
  refine ⟨?_, ?_, ?_, ?_, ?_, ?_, ?_, ?_⟩
  · simpa using g1
  · simpa using g8 (by simp)
  · simp only []
    rw [g4]
    simp [r1a]
  · simp only []
    rw [g5]
    simpa using r2
  · simp only []
    rw [g6]
    simp
  · simp only []
    rw [g3]
    simp
  · simp
  · simpa using g2

/-- C5 witness with a client that always raises. -/
theorem nudger_c5_witness :
    exUD.malformed = none ∧
    (generate_nudge kvRetrieve exLLMFail {} exUD).analysis =
      some "Unable to analyze context." ∧
    (generate_nudge kvRetrieve exLLMFail {} exUD).error.isSome = true ∧
    (generate_nudge kvRetrieve exLLMFail {} exUD).latTotal.isSome = true ∧
    (generate_nudge kvRetrieve exLLMFail {} exUD).nudge.isSome = true := by
  have h := nudger_c5 kvRetrieve exLLMFail {} exUD "boom" rfl rfl
  exact ⟨rfl, h.1, h.2.1, h.2.2.2.2.2.2.1, h.2.2.2.2.2.2.2⟩

/-- C8: a failure raised during ingestion short-circuits the remaining
stages and is returned as the structured record with the error message, the
fallback nudge text and a latency map holding `total`; with well-formed
ingestion no failure of the LLM client short-circuits anything — all four
stage latency keys plus `total` are present and a nudge is produced. -/
theorem nudger_c8 (cm : CMRetrieve) (llm : LLMClient) (lats : StageLats)
    (ud : UserData) :
    (∀ e, ud.malformed = some e →
      generate_nudge cm llm lats ud =
        { error := some e
          nudge := some "Error generating nudge."
          latTotal := some lats.errTotal }) ∧
    (ud.malformed = none →
      (generate_nudge cm llm lats ud).latIngestion.isSome = true ∧
      (generate_nudge cm llm lats ud).latRetrieval.isSome = true ∧
      (generate_nudge cm llm lats ud).latAnalysis.isSome = true ∧
      (generate_nudge cm llm lats ud).latNudgeGen.isSome = true ∧
      (generate_nudge cm llm lats ud).latTotal.isSome = true ∧
      (generate_nudge cm llm lats ud).nudge.isSome = true) := by
  constructor
  · intro e he
    unfold generate_nudge ingestStage udOf
    simp [he]
  · intro hok
    rw [generate_nudge_ok cm llm lats hok]
    obtain ⟨a1, a2, a3, a4, a5, a6, -, -⟩ :=
      analyzeStage_fields llm lats.analysis (retrieveStage cm (stAfterIngest ud lats))
    obtain ⟨g1, g2, g3, g4, g5, g6, g7, g8, -, -⟩ :=
      generateStage_fields llm lats.nudgeGen
        (analyzeStage llm lats.analysis (retrieveStage cm (stAfterIngest ud lats)))
    obtain ⟨r1, r2, -, -, -, -, -, -, -⟩ :=
      retrieveStage_fields cm (stAfterIngest ud lats)
    have r1a : (retrieveStage cm (stAfterIngest ud lats)).latIngestion =
        some lats.ingestion := by
      rw [r1]
      rfl
    refine ⟨?_, ?_, ?_, ?_, ?_, ?_⟩
    · simp only []
      rw [g4, a2]
      simp [r1a]
    · simp only []
      rw [g5, a3]
      simpa using r2
    · simp only []
      rw [g6, a1]
      simp
    · simp only []
      rw [g3]
      simp
    · simp
    · simpa using g2

/-- C8 witness: one malformed snapshot producing the structured error
record, and one healthy snapshot running all stages. -/
theorem nudger_c8_witness :
    exBadUD.malformed = some "bad data" ∧
    generate_nudge kvRetrieve exLLMOk {} exBadUD =
      { error := some "bad data"
        nudge := some "Error generating nudge."
        latTotal := some (({} : StageLats).errTotal) } ∧
    exUD.malformed = none ∧
    (generate_nudge kvRetrieve exLLMOk {} exUD).latNudgeGen.isSome = true :=
  ⟨rfl, (nudger_c8 kvRetrieve exLLMOk {} exBadUD).1 "bad data" rfl, rfl,
    ((nudger_c8 kvRetrieve exLLMOk {} exUD).2 rfl).2.2.2.1⟩

/-- C9: each stage transition preserves the Pipeline State invariant —
latency keys are only ever added, never removed, and the token counters
never decrease. -/
theorem nudger_c9 (cm : CMRetrieve) (llm : LLMClient) (lat : ℚ) (st : PState) :
    (∀ st2, ingestStage lat st = .ok st2 → stMono st st2) ∧
    stMono st (retrieveStage cm st) ∧
    stMono st (analyzeStage llm lat st) ∧
    stMono st (generateStage llm lat st) := by
  refine ⟨?_, ?_, ?_, ?_⟩
  · intro st2 h
    unfold ingestStage at h
    cases hm : (udOf st).malformed with
    | some e =>
      rw [hm] at h
      exact Except.noConfusion h
    | none =>
      rw [hm] at h
      have h2 : ({ st with latIngestion := some lat } : PState) = st2 := by
        injection h
      rw [← h2]
      unfold stMono
      simp
  · unfold stMono retrieveStage
    simp
  · unfold stMono analyzeStage
    cases llm (analysisPrompt st.context) <;> simp
  · unfold stMono generateStage
    cases llm (nudgePrompt st.context (st.analysis.getD "") (musicContext (udOf st))) <;> simp

/-- C9 witness at a concrete state and both a succeeding and a failing
client. -/
theorem nudger_c9_witness :
    ingestStage 1 { user_data := some exUD } = .ok (stAfterIngest exUD {}) ∧
    stMono { user_data := some exUD } (stAfterIngest exUD {}) ∧
    stMono { user_data := some exUD } (retrieveStage kvRetrieve { user_data := some exUD }) ∧
    stMono { user_data := some exUD } (analyzeStage exLLMFail 1 { user_data := some exUD }) ∧
    stMono { user_data := some exUD } (generateStage exLLMOk 1 { user_data := some exUD }) :=
  ⟨rfl,
    (nudger_c9 kvRetrieve exLLMFail 1 { user_data := some exUD }).1 (stAfterIngest exUD {}) rfl,
    (nudger_c9 kvRetrieve exLLMFail 1 { user_data := some exUD }).2.1,
    (nudger_c9 kvRetrieve exLLMFail 1 { user_data := some exUD }).2.2.1,
    (nudger_c9 kvRetrieve exLLMOk 1 { user_data := some exUD }).2.2.2⟩

end Nudger
